import Mathlib

/-
Verification of the share-allocation and equilibrium-consistency core of the
GCAM `Sector` class (objects/sectors/source/sector.cpp).

The embedding models one sector in one model period.  C++ `double` arithmetic
is embedded as exact rational arithmetic over `ℚ`; in `ℚ` division by zero
yields `0`, and every place where that convention is load-bearing is noted.
The `Subsector` class is an external collaborator whose source is not part of
this repository; its primitives are modelled from the specification (see the
doc comment of each such definition).  The static capacity-limit transform
`Subsector::capLimitTransform` is kept abstract: every sector operation that
needs it takes the transform as an explicit function parameter `T`.
-/

/-- Modelled from the spec: the numerical share tolerance `util::getSmallNumber`
(`SMALL_NUM`, e.g. 1e-10); the definition of `util` is not part of this
repository. -/
def SMALL_NUM : ℚ := 1 / 10000000000

/-- Modelled from the spec: the tiny threshold `util::getTinyNumber` (the ε used
to classify a fixed share as present); the definition of `util` is not part of
this repository and the spec gives no numeric value, so any tiny positive value
serves. -/
def TINY_NUM : ℚ := 1 / 100000000000

/-- The per-period state of one `Subsector`, as consumed by the `Sector` core:
`share` is the current (raw or normalized) share, `fixedShare` the stored fixed
share, `fixedOutput` the working fixed output quantity, `fixedOutputSaved` the
unscaled per-period fixed output restored by `resetfixedOutput`,
`capacityLimit` the capacity-limit fraction (1 = unlimited), `capLimitStatus`
the capacity-limited flag, `calOutputs` the total calibrated outputs
(`getTotalCalOutputs`), `allOutputFixed` the fixed-or-calibrated flag
(`allOuputFixed`), and `output` the subsector output (`getOutput`). -/
structure Subsec where
  share : ℚ
  fixedShare : ℚ
  fixedOutput : ℚ
  fixedOutputSaved : ℚ
  capacityLimit : ℚ
  capLimitStatus : Bool
  calOutputs : ℚ
  allOutputFixed : Bool
  output : ℚ
deriving DecidableEq, Inhabited

namespace Subsec

/-- Modelled from the spec: `Subsector::normShare` renormalizes the stored
share by the given normalization factor (the sector passes
`sum/(1-fixedSum)`, so renormalizing divides the share by the factor; a zero
factor yields the guarded degenerate share 0, which is what `ℚ` division by
zero gives). -/
def normShare (factor : ℚ) (s : Subsec) : Subsec :=
  { s with share := s.share / factor }

/-- Modelled from the spec: `Subsector::setCapLimitStatus` stores the
capacity-limit-active flag. -/
def setCapLimitStatus (b : Bool) (s : Subsec) : Subsec :=
  { s with capLimitStatus := b }

/-- Modelled from the spec: `Subsector::setFixedShare` stores the fixed share. -/
def setFixedShare (v : ℚ) (s : Subsec) : Subsec :=
  { s with fixedShare := v }

/-- Modelled from the spec: `Subsector::setShareToFixedValue` resets the share
of a fixed-output subsector to its stored fixed share ("the sectors with fixed
output are reset to their fixed share"). -/
def setShareToFixedValue (s : Subsec) : Subsec :=
  { s with share := s.fixedShare }

/-- Modelled from the spec: `Subsector::scalefixedOutput` scales the working
fixed output by the given factor. -/
def scalefixedOutput (factor : ℚ) (s : Subsec) : Subsec :=
  { s with fixedOutput := s.fixedOutput * factor }

/-- Modelled from the spec: `Subsector::resetfixedOutput` restores the working
fixed output to its unscaled per-period value before a new adjustment pass
(needed because `scalefixedOutput` overwrites it). -/
def resetfixedOutput (s : Subsec) : Subsec :=
  { s with fixedOutput := s.fixedOutputSaved }

/-- Modelled from the spec: `Subsector::adjShares` rescales the share of a
non-fixed subsector by `shareRatio` ("shareRatio = 0 is okay, sets all
non-fixed shares to 0") and resets the share of a fixed-output subsector to
the implied share `fixedOutput / marketDemand` whenever `marketDemand > 0`. -/
def adjShares (marketDemand shareRatio _totalFixedOutput : ℚ) (s : Subsec) : Subsec :=
  if s.fixedOutput = 0 then { s with share := s.share * shareRatio }
  else if 0 < marketDemand then { s with share := s.fixedOutput / marketDemand }
  else s

/-- Modelled from the spec: `Subsector::limitShares` caps the share of an
over-ceiling subsector at its effective ceiling (marking it capacity limited,
so that the ceiling is not transformed a second time), increases the share of
an under-ceiling subsector by the multiplier, and never touches a fixed-share
subsector.  `T` is the abstract `Subsector::capLimitTransform`. -/
def limitShares (T : ℚ → ℚ → ℚ) (multiplier : ℚ) (s : Subsec) : Subsec :=
  if 0 < s.fixedShare then s
  else
    let ceiling := if s.capLimitStatus then s.share else T s.capacityLimit s.share
    if ceiling ≤ s.share then { s with share := ceiling, capLimitStatus := true }
    else { s with share := s.share * multiplier }

/-- Modelled from the spec: `Subsector::setoutput` distributes the sector
demand to the subsector in proportion to its share. -/
def setoutput (demand : ℚ) (s : Subsec) : Subsec :=
  { s with output := s.share * demand }

end Subsec

/-- Errors the sector core reports to its error log (`cerr`/`ILogger`); every
one of them is a log line, not an exception. -/
inductive SectorError where
  | insufficientCapacity
  | capLimitUnresolved
  | negativeDemand
deriving DecidableEq

/-- The per-period state of one `Sector` as seen by the share-allocation core:
the ordered subsectors, the `anyFixedCapacity` flag, the period's
`capLimitsPresent` flag, the marketplace demand `mktDmd` for the sector's good
(`Marketplace::getDemand`), and the stored sector output `output` for the
period (`output[ period ]`). -/
structure SectorState where
  subsec : List Subsec
  anyFixedCapacity : Bool
  capLimitsPresent : Bool
  mktDmd : ℚ
  output : ℚ
deriving DecidableEq, Inhabited

namespace Sector

/-- Sum of the subsector shares, as accumulated by `Sector::checkShareSum`. -/
def shareSum (subs : List Subsec) : ℚ :=
  (subs.map Subsec.share).sum

/-- Embeds `Sector::checkShareSum` (sector.cpp:662): returns `true` exactly
when the shares sum to 1 within `SMALL_NUM`; the C++ routine prints an error
(and nothing else) in the `false` case. -/
def checkShareSum (subs : List Subsec) : Bool :=
  |shareSum subs - 1| ≤ SMALL_NUM

/-- Embeds the in-range branch of `Sector::getFixedShare` (sector.cpp:838)
applied to one subsector: the stored subsector fixed share, replaced by
`fixedOutput / marketDemand` when the stored value is positive and the
marketplace demand is positive. -/
def subFixedShare (mktDmd : ℚ) (s : Subsec) : ℚ :=
  if 0 < s.fixedShare then
    (if 0 < mktDmd then s.fixedOutput / mktDmd else s.fixedShare)
  else s.fixedShare

/-- Embeds `Sector::getFixedShare` (sector.cpp:838): for an illegal subsector
index the routine logs a configuration warning and returns the neutral value
0. -/
def getFixedShare (st : SectorState) (i : ℕ) : ℚ :=
  if h : i < st.subsec.length then subFixedShare st.mktDmd (st.subsec.get ⟨i, h⟩)
  else 0

/-- Embeds the body of the first loop of `Sector::calcShare` (sector.cpp:485)
over one subsector: the accumulator is the pair `(sum, fixedSum)`; `fixedSum`
accumulates the fixed shares (only when the sector has any fixed capacity) and
`sum` accumulates the shares of subsectors whose fixed share is below
`TINY_NUM`. -/
def calcShareStep (anyFixed : Bool) (mktDmd : ℚ) (acc : ℚ × ℚ) (sub : Subsec) : ℚ × ℚ :=
  let fixedShare := if anyFixed then subFixedShare mktDmd sub else 0
  ((if fixedShare < TINY_NUM then acc.1 + sub.share else acc.1),
   acc.2 + fixedShare)

/-- Embeds the first loop of `Sector::calcShare` over all subsectors. -/
def calcShareSums (st : SectorState) : ℚ × ℚ :=
  st.subsec.foldl (calcShareStep st.anyFixedCapacity st.mktDmd) (0, 0)

/-- Embeds the effective share ceiling computed for one subsector inside
`Sector::adjSharesCapLimit` (sector.cpp:599): an already-limited subsector
keeps its current share as its ceiling, otherwise the abstract
`Subsector::capLimitTransform` `T` is applied to (capacity limit, share). -/
def effCeiling (T : ℚ → ℚ → ℚ) (s : Subsec) : ℚ :=
  if s.capLimitStatus then s.share else T s.capacityLimit s.share

/-- The accumulator of the inner loop of `Sector::adjSharesCapLimit`:
`over` is `sumSharesOverLimit`, `notLim` is `sumSharesNotLimited`, and
`capLimited` records whether any subsector exceeded its ceiling by more than
`SMALL_NUM`. -/
structure CapSums where
  over : ℚ
  notLim : ℚ
  capLimited : Bool
deriving DecidableEq

/-- Embeds one step of the inner loop of `Sector::adjSharesCapLimit`
(sector.cpp:593-628) over one subsector. -/
def capIterStep (T : ℚ → ℚ → ℚ) (acc : CapSums) (sub : Subsec) : CapSums :=
  let ceiling := effCeiling T sub
  let acc :=
    if SMALL_NUM < sub.share - ceiling then
      { acc with capLimited := true, over := acc.over + (sub.share - ceiling) }
    else acc
  let acc :=
    if sub.share < ceiling then { acc with notLim := acc.notLim + sub.share } else acc
  if 0 < sub.fixedShare then { acc with notLim := acc.notLim - sub.share } else acc

/-- Embeds the inner loop of `Sector::adjSharesCapLimit` over all subsectors. -/
def capIterSums (T : ℚ → ℚ → ℚ) (subs : List Subsec) : CapSums :=
  subs.foldl (capIterStep T) ⟨0, 0, false⟩

/-- Result of the bounded fixed-point loop of `Sector::adjSharesCapLimit`:
the subsectors, the errors logged, the number of iterations of the outer loop
that executed, and the value of the `capLimited` flag when the loop exited. -/
structure CapRun where
  subs : List Subsec
  errors : List SectorError
  iters : ℕ
  capLimited : Bool
deriving DecidableEq

/-- Embeds the outer loop of `Sector::adjSharesCapLimit` (sector.cpp:587-646):
the loop runs while iterations remain and the previous iteration found a
subsector over its ceiling; an iteration with slack applies `limitShares` with
multiplier `1 + sumSharesOverLimit / sumSharesNotLimited` to every subsector,
an iteration without slack changes nothing and logs the insufficient-capacity
error when there are shares to redistribute. -/
def adjLoop (T : ℚ → ℚ → ℚ) : ℕ → List Subsec → CapRun
  | 0, subs => ⟨subs, [], 0, true⟩
  | n + 1, subs =>
    let s := capIterSums T subs
    if s.capLimited then
      if 0 < s.notLim then
        let r := adjLoop T n (subs.map (Subsec.limitShares T (1 + s.over / s.notLim)))
        ⟨r.subs, r.errors, r.iters + 1, r.capLimited⟩
      else
        let r := adjLoop T n subs
        ⟨r.subs, (if 0 < s.over then [SectorError.insufficientCapacity] else []) ++ r.errors,
         r.iters + 1, r.capLimited⟩
    else ⟨subs, [], 1, false⟩

/-- Embeds `Sector::adjSharesCapLimit` (sector.cpp:574): runs the bounded
fixed-point loop for at most `nosubsec` iterations and logs the
capacity-limit-not-resolved error when the loop exits still capacity
limited. -/
def adjSharesCapLimit (T : ℚ → ℚ → ℚ) (st : SectorState) : SectorState × List SectorError :=
  let r := adjLoop T st.subsec.length st.subsec
  ({ st with subsec := r.subs },
   r.errors ++ (if r.capLimited then [SectorError.capLimitUnresolved] else []))

/-- Embeds `Sector::calcShare` (sector.cpp:475).  The raw per-subsector share
computation `Subsector::calcShare` is an opaque external step, so the `share`
field of the input state holds the raw shares it produced.  The sector-level
`getFixedShare(i, period)` calls are applied elementwise through
`subFixedShare` (every index the loops use is in range).  `checkShareSum` only
logs, so it does not appear in the state transformation. -/
def calcShare (T : ℚ → ℚ → ℚ) (st : SectorState) : SectorState :=
  let p := calcShareSums st
  let sum := p.1
  let fixedSum0 := p.2
  let scaleFixedShare := if 1 < fixedSum0 then 1 / fixedSum0 else 1
  let fixedSum := if 1 < fixedSum0 then 1 else fixedSum0
  let subs := st.subsec.map (fun sub0 =>
    let sub := Subsec.setCapLimitStatus false sub0
    if sub.fixedOutput = 0 then
      Subsec.normShare (if fixedSum < 1 then sum / (1 - fixedSum) else sum / TINY_NUM) sub
    else
      let fshare := subFixedShare st.mktDmd sub * scaleFixedShare
      let currentShare := sub.fixedShare
      let sub1 := Subsec.setShareToFixedValue sub
      let sub2 := if 0 < currentShare
                  then Subsec.scalefixedOutput (fshare / currentShare) sub1 else sub1
      Subsec.setShareToFixedValue sub2)
  let st1 := { st with subsec := subs }
  if st1.capLimitsPresent then (adjSharesCapLimit T st1).1 else st1

/-- Embeds the per-subsector body of the first loop of
`Sector::adjustForFixedOutput` (sector.cpp:1021-1046): the working fixed
output is restored (`resetfixedOutput`), the fixed share is zeroed, and when
the fixed output is nonzero and the market demand is nonzero the fixed share
is set to `fixedOutput / marketDemand` capped at 1. -/
def afoLoop1Sub (marketDemand : ℚ) (sub0 : Subsec) : Subsec :=
  let sub := Subsec.resetfixedOutput sub0
  let fixedOutput := sub.fixedOutput
  let sub1 := Subsec.setFixedShare 0 sub
  if fixedOutput = 0 then sub1
  else if marketDemand ≠ 0 then
    let shareVal := fixedOutput / marketDemand
    Subsec.setFixedShare (if 1 < shareVal then 1 else shareVal) sub1
  else sub1

/-- Sum of the unscaled per-period fixed outputs, i.e. the `totalfixedOutput`
accumulated by the first loop of `Sector::adjustForFixedOutput` (each summand
is read right after `resetfixedOutput`). -/
def totalFixedSaved (subs : List Subsec) : ℚ :=
  (subs.map Subsec.fixedOutputSaved).sum

/-- Sum of the working fixed outputs (`Sector::getFixedOutput`,
sector.cpp:818). -/
def getFixedOutput (subs : List Subsec) : ℚ :=
  (subs.map Subsec.fixedOutput).sum

/-- The `variableShares` accumulated by the first loop of
`Sector::adjustForFixedOutput`: the sum of the shares of subsectors whose
(restored) fixed output is zero. -/
def afoVariableShares (subs : List Subsec) : ℚ :=
  (subs.map (fun sub => if sub.fixedOutputSaved = 0 then sub.share else 0)).sum

/-- Embeds `Sector::adjustForFixedOutput` (sector.cpp:1009).  The first loop
touches each subsector independently of the accumulators, so it is a map
(`afoLoop1Sub`) together with the accumulated sums (`afoVariableShares`,
`totalFixedSaved`).  When the total fixed output exceeds the market demand,
every subsector's fixed output is scaled by `marketDemand / totalfixedOutput`
and the total is clamped to the market demand.  The `assert( marketDemand != 0 )`
guarding the division in `variableSharesNew = 1 - totalfixedOutput/marketDemand`
is modelled as returning `none` (a loud debug-build abort). -/
def adjustForFixedOutput (marketDemand : ℚ) (subs : List Subsec) : Option (List Subsec) :=
  let subs1 := subs.map (afoLoop1Sub marketDemand)
  let variableShares := afoVariableShares subs
  let totalFixed0 := totalFixedSaved subs
  let subs2 := if marketDemand < totalFixed0
               then subs1.map (Subsec.scalefixedOutput (marketDemand / totalFixed0))
               else subs1
  let totalFixed := if marketDemand < totalFixed0 then marketDemand else totalFixed0
  if 0 < totalFixed then
    let variableSharesNew? : Option ℚ :=
      if marketDemand < totalFixed then some 0
      else if marketDemand = 0 then none
      else some (1 - totalFixed / marketDemand)
    match variableSharesNew? with
    | none => none
    | some vNew =>
      let shareRatio := if variableShares = 0 then 0 else vNew / variableShares
      some (subs2.map (Subsec.adjShares marketDemand shareRatio totalFixed))
  else some subs2

/-- Embeds `Sector::supply` (sector.cpp:1111): reads the market demand, logs
an error when it is negative, runs `adjustForFixedOutput` when the sector has
fixed capacity, and distributes the demand to every subsector via
`setoutput`.  The trailing `debugChecking` block only logs, so it does not
appear in the state transformation.  Returns the updated subsectors and the
errors logged; `none` propagates a `adjustForFixedOutput` abort. -/
def supply (st : SectorState) : Option (List Subsec × List SectorError) :=
  let errs : List SectorError := if st.mktDmd < 0 then [SectorError.negativeDemand] else []
  let adjusted := if st.anyFixedCapacity then adjustForFixedOutput st.mktDmd st.subsec
                  else some st.subsec
  match adjusted with
  | none => none
  | some subs => some (subs.map (Subsec.setoutput st.mktDmd), errs)

/-- Embeds `Sector::getCalOutput` (sector.cpp:869): sum of the subsector
calibrated outputs. -/
def getCalOutput (subs : List Subsec) : ℚ :=
  (subs.map Subsec.calOutputs).sum

/-- Embeds `Sector::outputsAllFixed` (sector.cpp:738): false for a negative
period, otherwise true when every subsector reports all output fixed. -/
def outputsAllFixed (period : ℤ) (subs : List Subsec) : Bool :=
  if period < 0 then false else subs.all Subsec.allOutputFixed

/-- Embeds `Sector::isAllCalibrated` (sector.cpp:418): only checks when the
period is positive and calibration is active; flags inconsistency when the
calibrated outputs are positive and either the difference
`(calOutputs + fixed output) - sector output` exceeds the accuracy or its
fraction of the calibrated outputs exceeds the accuracy while all outputs are
fixed.  The routine only logs in the failing case and never throws. -/
def isAllCalibrated (calibrationActive : Bool) (period : ℤ) (calAccuracy : ℚ)
    (st : SectorState) : Bool :=
  if 0 < period ∧ calibrationActive = true then
    if 0 < getCalOutput st.subsec then
      if calAccuracy < getCalOutput st.subsec + getFixedOutput st.subsec - st.output ∨
         (calAccuracy <
            |(getCalOutput st.subsec + getFixedOutput st.subsec - st.output)
               / getCalOutput st.subsec| ∧
          outputsAllFixed period st.subsec = true)
      then false else true
    else true
  else true

/-- Embeds `Sector::sumOutput` (sector.cpp:1159): recomputes the stored sector
output for the period as the sum of the subsector outputs (the validity check
on each summand only logs). -/
def sumOutput (subs : List Subsec) : ℚ :=
  subs.foldl (fun acc sub => acc + sub.output) 0

/-- Embeds `Sector::updateAndGetOutput` (sector.cpp:1185): for a positive
period, or for period 0 with a stored output of 0, the stored output is
recomputed by `sumOutput` before being returned; otherwise the hard-coded
base-year value is returned unchanged.  Returns the pair (stored output after
the call, returned value). -/
def updateAndGetOutput (period : ℕ) (stored : ℚ) (subs : List Subsec) : ℚ × ℚ :=
  if 0 < period ∨ stored = 0 then (sumOutput subs, sumOutput subs) else (stored, stored)

end Sector

/-- A concrete capacity-limit transform used to instantiate the abstract
`Subsector::capLimitTransform` at concrete inputs: it returns the raw
capacity-limit fraction unchanged. -/
def idTransform : ℚ → ℚ → ℚ := fun c _ => c

section Helpers

lemma foldl_add_output (l : List Subsec) (a : ℚ) :
    l.foldl (fun acc sub => acc + sub.output) a = a + (l.map Subsec.output).sum := by
  induction l generalizing a with
  | nil => simp
  | cons x xs ih => simp [ih, add_assoc]

lemma sumOutput_eq (subs : List Subsec) :
    Sector.sumOutput subs = (subs.map Subsec.output).sum := by
  simpa using foldl_add_output subs 0

lemma map_sum_div (l : List Subsec) (f : Subsec → ℚ) (c : ℚ) :
    (l.map (fun s => f s / c)).sum = (l.map f).sum / c := by
  induction l with
  | nil => simp
  | cons x xs ih => simp [ih, add_div]

lemma map_sum_mul (l : List Subsec) (f : Subsec → ℚ) (c : ℚ) :
    (l.map (fun s => f s * c)).sum = (l.map f).sum * c := by
  induction l with
  | nil => simp
  | cons x xs ih => simp [ih, add_mul]

end Helpers

section CapHelpers

lemma capIterStep_over (T : ℚ → ℚ → ℚ) (acc : Sector.CapSums) (sub : Subsec) :
    (Sector.capIterStep T acc sub).over =
      acc.over + (if SMALL_NUM < sub.share - Sector.effCeiling T sub
                  then sub.share - Sector.effCeiling T sub else 0) := by
  simp only [Sector.capIterStep]
  split_ifs <;> simp

lemma capIterStep_notLim (T : ℚ → ℚ → ℚ) (acc : Sector.CapSums) (sub : Subsec) :
    (Sector.capIterStep T acc sub).notLim =
      acc.notLim + ((if sub.share < Sector.effCeiling T sub then sub.share else 0)
                    - (if 0 < sub.fixedShare then sub.share else 0)) := by
  simp only [Sector.capIterStep]
  split_ifs <;> simp <;> ring

lemma capIterStep_capLimited (T : ℚ → ℚ → ℚ) (acc : Sector.CapSums) (sub : Subsec) :
    (Sector.capIterStep T acc sub).capLimited =
      (acc.capLimited || decide (SMALL_NUM < sub.share - Sector.effCeiling T sub)) := by
  simp only [Sector.capIterStep]
  split_ifs <;> simp_all

lemma capFold_over (T : ℚ → ℚ → ℚ) (subs : List Subsec) :
    ∀ acc : Sector.CapSums, (subs.foldl (Sector.capIterStep T) acc).over =
      acc.over + (subs.map (fun s => if SMALL_NUM < s.share - Sector.effCeiling T s
                                     then s.share - Sector.effCeiling T s else 0)).sum := by
  induction subs with
  | nil => intro acc; simp
  | cons x xs ih =>
    intro acc
    simp only [List.foldl_cons, List.map_cons, List.sum_cons]
    rw [ih, capIterStep_over]
    ring

lemma capFold_notLim (T : ℚ → ℚ → ℚ) (subs : List Subsec) :
    ∀ acc : Sector.CapSums, (subs.foldl (Sector.capIterStep T) acc).notLim =
      acc.notLim + (subs.map (fun s =>
        (if s.share < Sector.effCeiling T s then s.share else 0)
        - (if 0 < s.fixedShare then s.share else 0))).sum := by
  induction subs with
  | nil => intro acc; simp
  | cons x xs ih =>
    intro acc
    simp only [List.foldl_cons, List.map_cons, List.sum_cons]
    rw [ih, capIterStep_notLim]
    ring

lemma capFold_capLimited (T : ℚ → ℚ → ℚ) (subs : List Subsec) :
    ∀ acc : Sector.CapSums, (subs.foldl (Sector.capIterStep T) acc).capLimited =
      (acc.capLimited || subs.any (fun s =>
        decide (SMALL_NUM < s.share - Sector.effCeiling T s))) := by
  induction subs with
  | nil => intro acc; simp
  | cons x xs ih =>
    intro acc
    simp only [List.foldl_cons, List.any_cons]
    rw [ih, capIterStep_capLimited, Bool.or_assoc]

lemma capIterSums_over (T : ℚ → ℚ → ℚ) (subs : List Subsec) :
    (Sector.capIterSums T subs).over =
      (subs.map (fun s => if SMALL_NUM < s.share - Sector.effCeiling T s
                          then s.share - Sector.effCeiling T s else 0)).sum := by
  unfold Sector.capIterSums
  rw [capFold_over]
  simp

lemma capIterSums_notLim (T : ℚ → ℚ → ℚ) (subs : List Subsec) :
    (Sector.capIterSums T subs).notLim =
      (subs.map (fun s => (if s.share < Sector.effCeiling T s then s.share else 0)
                          - (if 0 < s.fixedShare then s.share else 0))).sum := by
  unfold Sector.capIterSums
  rw [capFold_notLim]
  simp

lemma capIterSums_capLimited (T : ℚ → ℚ → ℚ) (subs : List Subsec) :
    (Sector.capIterSums T subs).capLimited =
      subs.any (fun s => decide (SMALL_NUM < s.share - Sector.effCeiling T s)) := by
  unfold Sector.capIterSums
  rw [capFold_capLimited]
  simp

lemma capLimited_of_over_pos (T : ℚ → ℚ → ℚ) (subs : List Subsec)
    (h : 0 < (Sector.capIterSums T subs).over) :
    (Sector.capIterSums T subs).capLimited = true := by
  by_contra hc
  have hc' : (Sector.capIterSums T subs).capLimited = false := by
    simpa using hc
  rw [capIterSums_capLimited, List.any_eq_false] at hc'
  rw [capIterSums_over] at h
  have hz : ∀ s ∈ subs,
      (if SMALL_NUM < s.share - Sector.effCeiling T s
       then s.share - Sector.effCeiling T s else 0) = (0 : ℚ) := by
    intro s hs
    have := hc' s hs
    rw [if_neg (by simpa using this)]
  rw [List.map_congr_left hz] at h
  simp at h

lemma adjLoop_iters_le (T : ℚ → ℚ → ℚ) :
    ∀ (n : ℕ) (subs : List Subsec), (Sector.adjLoop T n subs).iters ≤ n := by
  intro n
  induction n with
  | zero => intro subs; exact Nat.le_refl 0
  | succ n ih =>
    intro subs
    simp only [Sector.adjLoop]
    split_ifs <;>
      first
        | exact Nat.succ_le_succ (ih _)
        | exact Nat.succ_le_succ (Nat.zero_le n)

lemma adjLoop_subs_stuck (T : ℚ → ℚ → ℚ) (subs : List Subsec)
    (hn : ¬ 0 < (Sector.capIterSums T subs).notLim)
    (ho : 0 < (Sector.capIterSums T subs).over) :
    ∀ n : ℕ, (Sector.adjLoop T n subs).subs = subs := by
  have hcap := capLimited_of_over_pos T subs ho
  intro n
  induction n with
  | zero => rfl
  | succ n ih =>
    simp only [Sector.adjLoop, hcap, if_true, if_neg hn]
    exact ih

end CapHelpers

/-- The concrete subsector list used for C4: the first subsector exceeds its
capacity limit of 1/2 by half of `SMALL_NUM` (inside the tolerance), the
second is strictly under its limit of 1. -/
def capOverState : List Subsec :=
  [{ share := 1 / 2 + 1 / 20000000000, fixedShare := 0, fixedOutput := 0,
     fixedOutputSaved := 0, capacityLimit := 1 / 2, capLimitStatus := false,
     calOutputs := 0, allOutputFixed := false, output := 0 },
   { share := 1 / 4, fixedShare := 0, fixedOutput := 0, fixedOutputSaved := 0,
     capacityLimit := 1, capLimitStatus := false, calOutputs := 0,
     allOutputFixed := false, output := 0 }]

/-- The inner-loop sums at `capOverState`: the half-`SMALL_NUM` excess is
inside the tolerance, so no subsector counts as over its limit. -/
lemma capOverState_sums :
    Sector.capIterSums idTransform capOverState = ⟨0, 1 / 4, false⟩ := by
  norm_num [Sector.capIterSums, Sector.capIterStep, Sector.effCeiling, idTransform,
    capOverState, SMALL_NUM]

/-- The capacity-limit loop leaves `capOverState` untouched after a single
iteration. -/
lemma capOverState_adjLoop (n : ℕ) :
    Sector.adjLoop idTransform (n + 1) capOverState = ⟨capOverState, [], 1, false⟩ := by
  simp only [Sector.adjLoop, capOverState_sums]
  norm_num

/-- Counterexample to C4 as stated: at `capOverState` a subsector's share does
exceed its effective ceiling and the claimed not-limited sum is positive, yet
the iteration does not apply `limitShares` with the multiplier built from
`sum of max(0, share - ceiling)` — the code ignores excesses within
`SMALL_NUM`, so the state is left unchanged and differs from the claimed
result. -/
theorem sector_capLimit_multiplier_counterexample :
    (∃ s ∈ capOverState, Sector.effCeiling idTransform s < s.share) ∧
    (0 : ℚ) <
      (capOverState.map (fun s =>
        (if s.share < Sector.effCeiling idTransform s then s.share else 0)
        - (if 0 < s.fixedShare then s.share else 0))).sum ∧
    (Sector.adjLoop idTransform capOverState.length capOverState).subs
      ≠ capOverState.map (Subsec.limitShares idTransform
          (1 + (capOverState.map (fun s =>
                  max 0 (s.share - Sector.effCeiling idTransform s))).sum
             / (capOverState.map (fun s =>
                  (if s.share < Sector.effCeiling idTransform s then s.share else 0)
                  - (if 0 < s.fixedShare then s.share else 0))).sum)) := by
  refine ⟨?_, ?_, ?_⟩
  · refine ⟨capOverState.head (by simp [capOverState]), by simp [capOverState], ?_⟩
    norm_num [capOverState, Sector.effCeiling, idTransform]
  · norm_num [capOverState, Sector.effCeiling, idTransform]
  · rw [show capOverState.length = 1 + 1 from by norm_num [capOverState], capOverState_adjLoop]
    intro heq
    have h0 := congrArg (fun l => (l.getD 0 default).share) heq
    norm_num [capOverState, Subsec.limitShares, Sector.effCeiling, idTransform,
      List.getD] at h0

/-- C4 amended: in an iteration of the Capacity-Limit Resolver in which some
subsector exceeds its effective ceiling by more than `SMALL_NUM` and the
not-limited sum is positive, the multiplier
`1 + sumSharesOverLimit / sumSharesNotLimited` is applied to every subsector
through `limitShares` (fixed-share subsectors are left untouched by it), where
`sumSharesOverLimit` sums the excesses that exceed `SMALL_NUM` and
`sumSharesNotLimited` sums the shares strictly under their ceiling minus the
shares of fixed-share subsectors. -/
theorem sector_capLimit_iteration (T : ℚ → ℚ → ℚ) (subs : List Subsec) (n : ℕ)
    (hcap : (Sector.capIterSums T subs).capLimited = true)
    (hpos : 0 < (Sector.capIterSums T subs).notLim) :
    (Sector.capIterSums T subs).over
        = (subs.map (fun s => if SMALL_NUM < s.share - Sector.effCeiling T s
                              then s.share - Sector.effCeiling T s else 0)).sum ∧
    (Sector.capIterSums T subs).notLim
        = (subs.map (fun s => (if s.share < Sector.effCeiling T s then s.share else 0)
                              - (if 0 < s.fixedShare then s.share else 0))).sum ∧
    Sector.adjLoop T (n + 1) subs
        = (let r := Sector.adjLoop T n (subs.map (Subsec.limitShares T
             (1 + (Sector.capIterSums T subs).over / (Sector.capIterSums T subs).notLim)))
           ⟨r.subs, r.errors, r.iters + 1, r.capLimited⟩) ∧
    (∀ s : Subsec, 0 < s.fixedShare →
       Subsec.limitShares T
         (1 + (Sector.capIterSums T subs).over / (Sector.capIterSums T subs).notLim) s = s) := by
  refine ⟨capIterSums_over T subs, capIterSums_notLim T subs, ?_, ?_⟩
  · simp only [Sector.adjLoop, hcap, if_true, if_pos hpos]
  · intro s hs
    unfold Subsec.limitShares
    rw [if_pos hs]

/-- The concrete subsector list for the C4 witness: shares 3/5, 3/10, 1/10
with capacity limits 2/5, 1, 1 — the first subsector is over its ceiling by
far more than `SMALL_NUM`, the other two are strictly under theirs. -/
def capCascadeState : List Subsec :=
  [{ share := 3 / 5, fixedShare := 0, fixedOutput := 0, fixedOutputSaved := 0,
     capacityLimit := 2 / 5, capLimitStatus := false, calOutputs := 0,
     allOutputFixed := false, output := 0 },
   { share := 3 / 10, fixedShare := 0, fixedOutput := 0, fixedOutputSaved := 0,
     capacityLimit := 1, capLimitStatus := false, calOutputs := 0,
     allOutputFixed := false, output := 0 },
   { share := 1 / 10, fixedShare := 0, fixedOutput := 0, fixedOutputSaved := 0,
     capacityLimit := 1, capLimitStatus := false, calOutputs := 0,
     allOutputFixed := false, output := 0 }]

/-- The inner-loop sums at `capCascadeState`. -/
lemma capCascadeState_sums :
    Sector.capIterSums idTransform capCascadeState = ⟨1 / 5, 2 / 5, true⟩ := by
  norm_num [Sector.capIterSums, Sector.capIterStep, Sector.effCeiling, idTransform,
    capCascadeState, SMALL_NUM]

/-- Witness for C4 (amended) at `capCascadeState`. -/
theorem sector_capLimit_iteration_witness :
    (Sector.capIterSums idTransform capCascadeState).over
        = (capCascadeState.map (fun s =>
            if SMALL_NUM < s.share - Sector.effCeiling idTransform s
            then s.share - Sector.effCeiling idTransform s else 0)).sum ∧
    (Sector.capIterSums idTransform capCascadeState).notLim
        = (capCascadeState.map (fun s =>
            (if s.share < Sector.effCeiling idTransform s then s.share else 0)
            - (if 0 < s.fixedShare then s.share else 0))).sum ∧
    Sector.adjLoop idTransform (2 + 1) capCascadeState
        = (let r := Sector.adjLoop idTransform 2 (capCascadeState.map
             (Subsec.limitShares idTransform
               (1 + (Sector.capIterSums idTransform capCascadeState).over
                  / (Sector.capIterSums idTransform capCascadeState).notLim)))
           ⟨r.subs, r.errors, r.iters + 1, r.capLimited⟩) ∧
    (∀ s : Subsec, 0 < s.fixedShare →
       Subsec.limitShares idTransform
         (1 + (Sector.capIterSums idTransform capCascadeState).over
            / (Sector.capIterSums idTransform capCascadeState).notLim) s = s) :=
  sector_capLimit_iteration idTransform capCascadeState 2
    (by rw [capCascadeState_sums]) (by rw [capCascadeState_sums]; norm_num)

/-- C5: the Capacity-Limit Resolver always terminates (its embedding is a
total function on a fuel bounded by the subsector count): the loop at
`adjSharesCapLimit`'s call site executes at most `nosubsec` iterations, and
whenever an iteration finds no subsector over its effective ceiling the loop
exits right after that iteration leaving the subsectors unchanged. -/
theorem sector_capLimit_bounded (T : ℚ → ℚ → ℚ) (st : SectorState) :
    (Sector.adjLoop T st.subsec.length st.subsec).iters ≤ st.subsec.length ∧
    (∀ (n : ℕ) (subs : List Subsec),
       (Sector.capIterSums T subs).capLimited = false →
       Sector.adjLoop T (n + 1) subs = ⟨subs, [], 1, false⟩) ∧
    (∀ (n : ℕ) (subs : List Subsec),
       (∀ s ∈ subs, s.share ≤ Sector.effCeiling T s) →
       Sector.adjLoop T (n + 1) subs = ⟨subs, [], 1, false⟩) := by
  have hexit : ∀ (n : ℕ) (subs : List Subsec),
      (Sector.capIterSums T subs).capLimited = false →
      Sector.adjLoop T (n + 1) subs = ⟨subs, [], 1, false⟩ := by
    intro n subs h
    simp only [Sector.adjLoop, h]
    norm_num
  refine ⟨adjLoop_iters_le T st.subsec.length st.subsec, hexit, ?_⟩
  intro n subs h
  refine hexit n subs ?_
  rw [capIterSums_capLimited, List.any_eq_false]
  intro s hs
  simp only [decide_eq_true_eq, not_lt]
  calc s.share - Sector.effCeiling T s ≤ 0 := sub_nonpos.mpr (h s hs)
    _ ≤ SMALL_NUM := by norm_num [SMALL_NUM]

/-- Witness for C5 at `capOverState` (no subsector over by more than
`SMALL_NUM`): the loop performs exactly one iteration and returns the
subsectors unchanged. -/
theorem sector_capLimit_bounded_witness :
    Sector.adjLoop idTransform (2 + 1) capOverState = ⟨capOverState, [], 1, false⟩ :=
  (sector_capLimit_bounded idTransform
      ⟨capOverState, false, false, 0, 0⟩).2.1 2 capOverState
    (by rw [capOverState_sums])

/-- The concrete subsector list used for C6: one subsector whose share 0 is
above its (negative) transformed ceiling while no slack exists, so the
capacity limits are infeasible. -/
def capStuckState : List Subsec :=
  [{ share := 0, fixedShare := 0, fixedOutput := 0, fixedOutputSaved := 0,
     capacityLimit := -1, capLimitStatus := false, calOutputs := 0,
     allOutputFixed := false, output := 0 }]

/-- The inner-loop sums at `capStuckState`: over-limit excess 1, no slack. -/
lemma capStuckState_sums :
    Sector.capIterSums idTransform capStuckState = ⟨1, 0, true⟩ := by
  norm_num [Sector.capIterSums, Sector.capIterStep, Sector.effCeiling, idTransform,
    capStuckState, SMALL_NUM]

/-- C6: when an iteration of the Capacity-Limit Resolver finds a zero
not-limited sum while the over-limit sum is strictly positive, the
insufficient-capacity (infeasibility) error is logged and the allocation is
kept unchanged (best effort); and when the loop exits its iteration budget
still capacity limited, the capacity-limit-unresolved error is logged by
`adjSharesCapLimit`.  In both cases the routine returns normally (both
embeddings are total functions) rather than halting the run. -/
theorem sector_capLimit_degenerate (T : ℚ → ℚ → ℚ) :
    (∀ (subs : List Subsec) (n : ℕ),
       (Sector.capIterSums T subs).notLim = 0 →
       0 < (Sector.capIterSums T subs).over →
       SectorError.insufficientCapacity ∈ (Sector.adjLoop T (n + 1) subs).errors ∧
       (Sector.adjLoop T (n + 1) subs).subs = subs) ∧
    (∀ st : SectorState,
       (Sector.adjLoop T st.subsec.length st.subsec).capLimited = true →
       SectorError.capLimitUnresolved ∈ (Sector.adjSharesCapLimit T st).2) := by
  constructor
  · intro subs n hn ho
    have hcap := capLimited_of_over_pos T subs ho
    have hn' : ¬ 0 < (Sector.capIterSums T subs).notLim := by
      rw [hn]
      exact lt_irrefl 0
    constructor
    · simp only [Sector.adjLoop, hcap, if_true, if_neg hn', if_pos ho]
      exact List.mem_append_left _ (List.mem_singleton_self _)
    · exact adjLoop_subs_stuck T subs hn' ho (n + 1)
  · intro st h
    unfold Sector.adjSharesCapLimit
    simp only [h, if_true]
    exact List.mem_append_right _ (List.mem_singleton_self _)

/-- Witness for C6 at `capStuckState`: the infeasibility error is logged with
the allocation kept, and the unresolved error is logged at loop exit. -/
theorem sector_capLimit_degenerate_witness :
    (SectorError.insufficientCapacity
        ∈ (Sector.adjLoop idTransform (0 + 1) capStuckState).errors ∧
     (Sector.adjLoop idTransform (0 + 1) capStuckState).subs = capStuckState) ∧
    SectorError.capLimitUnresolved
        ∈ (Sector.adjSharesCapLimit idTransform ⟨capStuckState, false, true, 0, 0⟩).2 :=
  ⟨(sector_capLimit_degenerate idTransform).1 capStuckState 0
      (by rw [capStuckState_sums]) (by rw [capStuckState_sums]; norm_num),
   (sector_capLimit_degenerate idTransform).2 ⟨capStuckState, false, true, 0, 0⟩
      (by
        show (Sector.adjLoop idTransform capStuckState.length capStuckState).capLimited = true
        rw [show capStuckState.length = 0 + 1 from by norm_num [capStuckState]]
        simp only [Sector.adjLoop, capStuckState_sums]
        norm_num [Sector.adjLoop])⟩

/-- C10: for every period strictly greater than 0, and for period 0 when the
stored sector output is 0, `updateAndGetOutput` recomputes the stored output
as the sum of all subsector outputs before returning it; for period 0 with a
nonzero stored output it returns the stored value unchanged, without
consulting the subsectors. -/
theorem sector_updateAndGetOutput_spec (period : ℕ) (stored : ℚ) (subs : List Subsec) :
    Sector.sumOutput subs = (subs.map Subsec.output).sum ∧
    (0 < period →
      Sector.updateAndGetOutput period stored subs = (Sector.sumOutput subs, Sector.sumOutput subs)) ∧
    (period = 0 → stored = 0 →
      Sector.updateAndGetOutput period stored subs = (Sector.sumOutput subs, Sector.sumOutput subs)) ∧
    (period = 0 → stored ≠ 0 →
      Sector.updateAndGetOutput period stored subs = (stored, stored)) := by
  refine ⟨sumOutput_eq subs, ?_, ?_, ?_⟩
  · intro h
    simp [Sector.updateAndGetOutput, h]
  · intro h h0
    simp [Sector.updateAndGetOutput, h, h0]
  · intro h h0
    simp [Sector.updateAndGetOutput, h, h0]

/-- Witness for C10 at a concrete state: period 0 with the hard-coded stored
output 7 is preserved; period 1 recomputes from the subsector outputs. -/
theorem sector_updateAndGetOutput_spec_witness :
    Sector.updateAndGetOutput 0 7 [default] = (7, 7) :=
  (sector_updateAndGetOutput_spec 0 7 [default]).2.2.2 rfl (by norm_num)

section AfoHelpers

lemma afoLoop1Sub_share (m : ℚ) (s : Subsec) :
    (Sector.afoLoop1Sub m s).share = s.share := by
  simp only [Sector.afoLoop1Sub, Subsec.resetfixedOutput, Subsec.setFixedShare]
  split_ifs <;> rfl

lemma afoLoop1Sub_fixedOutput (m : ℚ) (s : Subsec) :
    (Sector.afoLoop1Sub m s).fixedOutput = s.fixedOutputSaved := by
  simp only [Sector.afoLoop1Sub, Subsec.resetfixedOutput, Subsec.setFixedShare]
  split_ifs <;> rfl

lemma afoLoop1Sub_fixedShare (m : ℚ) (s : Subsec) :
    (Sector.afoLoop1Sub m s).fixedShare =
      if s.fixedOutputSaved = 0 then 0
      else if m ≠ 0 then
        (if 1 < s.fixedOutputSaved / m then 1 else s.fixedOutputSaved / m)
      else 0 := by
  simp only [Sector.afoLoop1Sub, Subsec.resetfixedOutput, Subsec.setFixedShare]
  split_ifs <;> rfl

lemma scalefixedOutput_share (c : ℚ) (s : Subsec) :
    (Subsec.scalefixedOutput c s).share = s.share := rfl

lemma scalefixedOutput_fixedShare (c : ℚ) (s : Subsec) :
    (Subsec.scalefixedOutput c s).fixedShare = s.fixedShare := rfl

lemma adjShares_fixedOutput (m r t : ℚ) (s : Subsec) :
    (Subsec.adjShares m r t s).fixedOutput = s.fixedOutput := by
  simp only [Subsec.adjShares]
  split_ifs <;> rfl

lemma adjShares_fixedShare (m r t : ℚ) (s : Subsec) :
    (Subsec.adjShares m r t s).fixedShare = s.fixedShare := by
  simp only [Subsec.adjShares]
  split_ifs <;> rfl

/-- Structural form of `adjustForFixedOutput`: it always returns `some` (the
division-by-zero assert is unreachable), and the result is the first loop
composed with a final per-subsector transform that never changes the fixed
share and only changes the fixed output by the scale-down factor. -/
lemma afo_eq_map (m : ℚ) (subs : List Subsec) :
    ∃ g : Subsec → Subsec,
      (∀ s, (g s).fixedShare = s.fixedShare) ∧
      (∀ s, (g s).fixedOutput =
        (if m < Sector.totalFixedSaved subs
         then s.fixedOutput * (m / Sector.totalFixedSaved subs) else s.fixedOutput)) ∧
      Sector.adjustForFixedOutput m subs
        = some ((subs.map (Sector.afoLoop1Sub m)).map g) := by
  unfold Sector.adjustForFixedOutput
  by_cases hscale : m < Sector.totalFixedSaved subs
  · simp only [if_pos hscale]
    by_cases hm : 0 < m
    · refine ⟨fun s => Subsec.adjShares m
        (if Sector.afoVariableShares subs = 0 then 0
         else (1 - m / m) / Sector.afoVariableShares subs) m (Subsec.scalefixedOutput
           (m / Sector.totalFixedSaved subs) s), ?_, ?_, ?_⟩
      · intro s
        rw [adjShares_fixedShare, scalefixedOutput_fixedShare]
      · intro s
        rw [adjShares_fixedOutput]
        rfl
      · simp only [if_pos hm, lt_irrefl m, if_false, if_neg (ne_of_gt hm), List.map_map]
        rfl
    · refine ⟨Subsec.scalefixedOutput (m / Sector.totalFixedSaved subs), ?_, ?_, ?_⟩
      · intro s
        rw [scalefixedOutput_fixedShare]
      · intro s
        rfl
      · simp only [if_neg hm, List.map_map]
  · simp only [if_neg hscale]
    by_cases ht : 0 < Sector.totalFixedSaved subs
    · have hm0 : m ≠ 0 := by
        intro h0
        rw [h0] at hscale
        exact hscale ht
      refine ⟨Subsec.adjShares m
        (if Sector.afoVariableShares subs = 0 then 0
         else (1 - Sector.totalFixedSaved subs / m) / Sector.afoVariableShares subs)
        (Sector.totalFixedSaved subs), ?_, ?_, ?_⟩
      · intro s
        rw [adjShares_fixedShare]
      · intro s
        rw [adjShares_fixedOutput]
      · simp only [if_pos ht, if_neg hscale, if_neg hm0, List.map_map]
    · refine ⟨id, fun s => rfl, fun s => rfl, ?_⟩
      simp only [if_neg ht, List.map_id]

/-- The result of `adjustForFixedOutput` at zero market demand and positive
total fixed output: the first loop followed by scaling every fixed output by
the (well-defined) factor `0 / totalfixedOutput`. -/
lemma afo_zero_demand_eq (subs : List Subsec) (h : 0 < Sector.totalFixedSaved subs) :
    Sector.adjustForFixedOutput 0 subs =
      some ((subs.map (Sector.afoLoop1Sub 0)).map
        (Subsec.scalefixedOutput (0 / Sector.totalFixedSaved subs))) := by
  unfold Sector.adjustForFixedOutput
  simp only [if_pos h, lt_irrefl (0 : ℚ), if_false]

end AfoHelpers

/-- The concrete subsector list used for C2: a single subsector with fixed
output 5. -/
def fixedDemandState : List Subsec :=
  [{ share := 1 / 2, fixedShare := 0, fixedOutput := 5, fixedOutputSaved := 5,
     capacityLimit := 1, capLimitStatus := false, calOutputs := 0,
     allOutputFixed := false, output := 0 }]

/-- Counterexample to C2 as stated: at market demand 0 with nonzero total
fixed output, `adjustForFixedOutput` does not raise any fatal error — it
returns normally (`isSome`), silently continuing. -/
theorem sector_afo_zero_demand_counterexample :
    Sector.totalFixedSaved fixedDemandState ≠ 0 ∧
    (Sector.adjustForFixedOutput 0 fixedDemandState).isSome = true := by
  constructor
  · simp [Sector.totalFixedSaved, fixedDemandState]
  · rw [afo_zero_demand_eq fixedDemandState
      (by simp [Sector.totalFixedSaved, fixedDemandState])]
    rfl

/-- C2 amended: when `adjustForFixedOutput` is called with market demand 0
while the total fixed output is positive, no division by zero occurs and no
fatal error is raised: the routine silently scales every fixed output to 0,
zeroes every fixed share, leaves every share unchanged, and returns
normally. -/
theorem sector_afo_zero_demand (subs : List Subsec)
    (h : 0 < Sector.totalFixedSaved subs) :
    ∃ subs2, Sector.adjustForFixedOutput 0 subs = some subs2 ∧
      subs2.map Subsec.share = subs.map Subsec.share ∧
      ∀ s2 ∈ subs2, s2.fixedOutput = 0 ∧ s2.fixedShare = 0 := by
  refine ⟨_, afo_zero_demand_eq subs h, ?_, ?_⟩
  · rw [List.map_map, List.map_map]
    have hpt : ∀ (c : ℚ) (s : Subsec),
        (Subsec.scalefixedOutput c (Sector.afoLoop1Sub 0 s)).share = s.share := by
      intro c s
      rw [scalefixedOutput_share, afoLoop1Sub_share]
    simp [Function.comp, hpt]
  · intro s2 hs2
    rw [List.map_map, List.mem_map] at hs2
    obtain ⟨a, _, rfl⟩ := hs2
    constructor
    · show (Sector.afoLoop1Sub 0 a).fixedOutput * (0 / Sector.totalFixedSaved subs) = 0
      rw [zero_div, mul_zero]
    · show (Sector.afoLoop1Sub 0 a).fixedShare = 0
      rw [afoLoop1Sub_fixedShare]
      simp

/-- Witness for C2 (amended): the single-subsector state with fixed output 5
at market demand 0 is silently zeroed out. -/
theorem sector_afo_zero_demand_witness :
    ∃ subs2, Sector.adjustForFixedOutput 0 fixedDemandState = some subs2 ∧
      subs2.map Subsec.share = fixedDemandState.map Subsec.share ∧
      ∀ s2 ∈ subs2, s2.fixedOutput = 0 ∧ s2.fixedShare = 0 :=
  sector_afo_zero_demand fixedDemandState
    (by norm_num [Sector.totalFixedSaved, fixedDemandState])

/-- The concrete sector state used for C8: no fixed capacity, one subsector
with share 1, and a marketplace demand of -5. -/
def negDemandState : SectorState :=
  { subsec := [{ share := 1, fixedShare := 0, fixedOutput := 0, fixedOutputSaved := 0,
                 capacityLimit := 1, capLimitStatus := false, calOutputs := 0,
                 allOutputFixed := false, output := 0 }],
    anyFixedCapacity := false, capLimitsPresent := false, mktDmd := -5, output := 0 }

/-- Counterexample to C8 as stated: a negative market demand of -5 is not
treated as zero — it drives the subsector output to -5 through `setoutput`,
unlike the output 0 produced when the demand is 0. -/
theorem sector_supply_negative_demand_counterexample :
    (Sector.supply negDemandState).map (fun r => r.1.map Subsec.output) = some [(-5 : ℚ)] ∧
    (Sector.supply { negDemandState with mktDmd := 0 }).map (fun r => r.1.map Subsec.output)
      = some [(0 : ℚ)] ∧
    ((-5 : ℚ) ≠ 0) := by
  refine ⟨?_, ?_, by norm_num⟩ <;>
    simp [Sector.supply, negDemandState, Subsec.setoutput]

/-- C8 amended: when `supply` reads a strictly negative market demand it logs
the negative-demand error but continues with the negative value: the demand is
passed unchanged to the fixed-output adjustment and to every subsector's
`setoutput`. -/
theorem sector_supply_negative_demand (st : SectorState) (h : st.mktDmd < 0) :
    ∃ subs1, (if st.anyFixedCapacity then Sector.adjustForFixedOutput st.mktDmd st.subsec
              else some st.subsec) = some subs1 ∧
      Sector.supply st = some (subs1.map (Subsec.setoutput st.mktDmd),
        [SectorError.negativeDemand]) := by
  by_cases hf : st.anyFixedCapacity = true
  · obtain ⟨g, _, _, heq⟩ := afo_eq_map st.mktDmd st.subsec
    refine ⟨(st.subsec.map (Sector.afoLoop1Sub st.mktDmd)).map g, ?_, ?_⟩
    · rw [if_pos hf]
      exact heq
    · unfold Sector.supply
      rw [if_pos h, if_pos hf, heq]
  · have hf' : st.anyFixedCapacity = false := by
      simpa using hf
    refine ⟨st.subsec, ?_, ?_⟩
    · rw [if_neg hf]
    · unfold Sector.supply
      rw [if_pos h, if_neg hf]

/-- Witness for C8 (amended) at the concrete negative-demand state. -/
theorem sector_supply_negative_demand_witness :
    ∃ subs1, (if negDemandState.anyFixedCapacity
              then Sector.adjustForFixedOutput negDemandState.mktDmd negDemandState.subsec
              else some negDemandState.subsec) = some subs1 ∧
      Sector.supply negDemandState
        = some (subs1.map (Subsec.setoutput negDemandState.mktDmd),
            [SectorError.negativeDemand]) :=
  sector_supply_negative_demand negDemandState (by norm_num [negDemandState])

/-- C3: for nonnegative market demand, `adjustForFixedOutput` returns
normally with the final total fixed output at most the market demand, and
whenever the initially summed total fixed output exceeds the market demand,
every subsector's fixed output is scaled by `marketDemand / totalFixedOutput`
and the total is clamped to exactly the market demand. -/
theorem sector_adjustForFixedOutput_cap (marketDemand : ℚ) (subs : List Subsec)
    (hd : 0 ≤ marketDemand) :
    ∃ subs2, Sector.adjustForFixedOutput marketDemand subs = some subs2 ∧
      Sector.getFixedOutput subs2 ≤ marketDemand ∧
      (marketDemand < Sector.totalFixedSaved subs →
        subs2.map Subsec.fixedOutput
          = subs.map (fun s => s.fixedOutputSaved * (marketDemand / Sector.totalFixedSaved subs)) ∧
        Sector.getFixedOutput subs2 = marketDemand) := by
  obtain ⟨g, _, hfo, heq⟩ := afo_eq_map marketDemand subs
  have hmap : ((subs.map (Sector.afoLoop1Sub marketDemand)).map g).map Subsec.fixedOutput
      = subs.map (fun s =>
          if marketDemand < Sector.totalFixedSaved subs
          then s.fixedOutputSaved * (marketDemand / Sector.totalFixedSaved subs)
          else s.fixedOutputSaved) := by
    rw [List.map_map, List.map_map]
    have hpt : ∀ s : Subsec,
        (Subsec.fixedOutput ∘ (g ∘ Sector.afoLoop1Sub marketDemand)) s
          = (if marketDemand < Sector.totalFixedSaved subs
             then s.fixedOutputSaved * (marketDemand / Sector.totalFixedSaved subs)
             else s.fixedOutputSaved) := by
      intro s
      show (g (Sector.afoLoop1Sub marketDemand s)).fixedOutput = _
      rw [hfo, afoLoop1Sub_fixedOutput]
    exact List.map_congr_left (fun s _ => hpt s)
  refine ⟨_, heq, ?_, ?_⟩
  · unfold Sector.getFixedOutput
    rw [hmap]
    by_cases hscale : marketDemand < Sector.totalFixedSaved subs
    · simp only [if_pos hscale]
      rw [map_sum_mul]
      have ht : Sector.totalFixedSaved subs ≠ 0 :=
        ne_of_gt (lt_of_le_of_lt hd hscale)
      rw [show (subs.map Subsec.fixedOutputSaved).sum = Sector.totalFixedSaved subs from rfl]
      rw [mul_comm]
      exact le_of_eq (div_mul_cancel₀ marketDemand ht)
    · simp only [if_neg hscale]
      exact le_of_not_lt hscale
  · intro hscale
    constructor
    · rw [hmap]
      simp only [if_pos hscale]
    · unfold Sector.getFixedOutput
      rw [hmap]
      simp only [if_pos hscale]
      rw [map_sum_mul]
      have ht : Sector.totalFixedSaved subs ≠ 0 :=
        ne_of_gt (lt_of_le_of_lt hd hscale)
      rw [show (subs.map Subsec.fixedOutputSaved).sum = Sector.totalFixedSaved subs from rfl]
      rw [mul_comm]
      exact div_mul_cancel₀ marketDemand ht

/-- The concrete subsector list used for the C3 witness: two subsectors with
fixed outputs 5 and 3 against a market demand of 4. -/
def afoCapState : List Subsec :=
  [{ share := 0, fixedShare := 0, fixedOutput := 5, fixedOutputSaved := 5,
     capacityLimit := 1, capLimitStatus := false, calOutputs := 0,
     allOutputFixed := false, output := 0 },
   { share := 0, fixedShare := 0, fixedOutput := 3, fixedOutputSaved := 3,
     capacityLimit := 1, capLimitStatus := false, calOutputs := 0,
     allOutputFixed := false, output := 0 }]

/-- Witness for C3: with fixed outputs 5 and 3 and market demand 4, the
adjuster succeeds and caps the total fixed output at the demand. -/
theorem sector_adjustForFixedOutput_cap_witness :
    ∃ subs2, Sector.adjustForFixedOutput 4 afoCapState = some subs2 ∧
      Sector.getFixedOutput subs2 ≤ 4 ∧
      (4 < Sector.totalFixedSaved afoCapState →
        subs2.map Subsec.fixedOutput
          = afoCapState.map (fun s => s.fixedOutputSaved * (4 / Sector.totalFixedSaved afoCapState)) ∧
        Sector.getFixedOutput subs2 = 4) :=
  sector_adjustForFixedOutput_cap 4 afoCapState (by norm_num)

/-- The concrete subsector list used for C9: a single subsector whose fixed
output 10 exceeds the market demand 5. -/
def fixedShareClampState : List Subsec :=
  [{ share := 0, fixedShare := 0, fixedOutput := 10, fixedOutputSaved := 10,
     capacityLimit := 1, capLimitStatus := false, calOutputs := 0,
     allOutputFixed := false, output := 0 }]

/-- Counterexample to C9 as stated: with fixed output 10 and market demand 5,
the fixed share is set to the clamped value 1, not to
`fixedOutput / marketDemand = 2`. -/
theorem sector_afo_fixedShare_counterexample :
    (Sector.adjustForFixedOutput 5 fixedShareClampState).map (fun l => l.map Subsec.fixedShare)
      = some [1] ∧ ((10 : ℚ) / 5 ≠ 1) := by
  constructor
  · obtain ⟨g, hfs, _, heq⟩ := afo_eq_map 5 fixedShareClampState
    rw [heq]
    have h1 : (g (Sector.afoLoop1Sub 5
        { share := 0, fixedShare := 0, fixedOutput := 10, fixedOutputSaved := 10,
          capacityLimit := 1, capLimitStatus := false, calOutputs := 0,
          allOutputFixed := false, output := 0 })).fixedShare = 1 := by
      rw [hfs, afoLoop1Sub_fixedShare]
      norm_num
    simp [fixedShareClampState, h1]
  · norm_num

/-- C9 amended: for `marketDemand > 0` and a subsector with nonzero fixed
output, the Fixed-Output Adjuster sets that subsector's fixed share to
`min 1 (fixedOutput / marketDemand)` — the implied share of its fixed output
in total demand, clamped above by 1. -/
theorem sector_afo_fixedShare (marketDemand : ℚ) (subs : List Subsec) (i : ℕ)
    (hi : i < subs.length) (hm : 0 < marketDemand)
    (hf : (subs.get ⟨i, hi⟩).fixedOutputSaved ≠ 0) :
    ∃ subs2, Sector.adjustForFixedOutput marketDemand subs = some subs2 ∧
      ∃ hi2 : i < subs2.length,
        (subs2.get ⟨i, hi2⟩).fixedShare
          = min 1 ((subs.get ⟨i, hi⟩).fixedOutputSaved / marketDemand) := by
  obtain ⟨g, hfs, _, heq⟩ := afo_eq_map marketDemand subs
  have hlen : ((subs.map (Sector.afoLoop1Sub marketDemand)).map g).length = subs.length := by
    simp
  refine ⟨_, heq, by rw [hlen]; exact hi, ?_⟩
  have hget : ((subs.map (Sector.afoLoop1Sub marketDemand)).map g).get
        ⟨i, by rw [hlen]; exact hi⟩
      = g (Sector.afoLoop1Sub marketDemand (subs.get ⟨i, hi⟩)) := by
    rw [List.get_map, List.get_map]
  rw [hget, hfs, afoLoop1Sub_fixedShare, if_neg hf, if_pos (ne_of_gt hm)]
  rcases lt_trichotomy 1 ((subs.get ⟨i, hi⟩).fixedOutputSaved / marketDemand) with h | h | h
  · rw [if_pos h, min_eq_left (le_of_lt h)]
  · rw [if_neg (by rw [h]; exact lt_irrefl _), ← h, min_self]
  · rw [if_neg (not_lt_of_gt h), min_eq_right (le_of_lt h)]

/-- Witness for C9 (amended): fixed output 10, market demand 5 yields the
clamped fixed share `min 1 (10/5) = 1`. -/
theorem sector_afo_fixedShare_witness :
    ∃ subs2, Sector.adjustForFixedOutput 5 fixedShareClampState = some subs2 ∧
      ∃ hi2 : 0 < subs2.length,
        (subs2.get ⟨0, hi2⟩).fixedShare
          = min 1 ((fixedShareClampState.get ⟨0, by norm_num [fixedShareClampState]⟩).fixedOutputSaved / 5) :=
  sector_afo_fixedShare 5 fixedShareClampState 0 (by norm_num [fixedShareClampState])
    (by norm_num) (by norm_num [fixedShareClampState])

/-- C7: `isAllCalibrated` returns false exactly when the period is positive,
calibration is active, the calibrated outputs are positive, and either the
difference `(calOutputs + fixed output) - sector output` exceeds the accuracy
or its fraction of the calibrated outputs exceeds the accuracy in absolute
value while all subsector outputs are fixed-or-calibrated; in particular for a
non-positive period or inactive calibration it returns true, and it never
throws (it is a total boolean function). -/
theorem sector_isAllCalibrated_false_iff (active : Bool) (period : ℤ) (calAccuracy : ℚ)
    (st : SectorState) :
    Sector.isAllCalibrated active period calAccuracy st = false ↔
      (0 < period ∧ active = true ∧
       0 < Sector.getCalOutput st.subsec ∧
       (calAccuracy <
          Sector.getCalOutput st.subsec + Sector.getFixedOutput st.subsec - st.output ∨
        (calAccuracy <
           |(Sector.getCalOutput st.subsec + Sector.getFixedOutput st.subsec - st.output)
              / Sector.getCalOutput st.subsec| ∧
         Sector.outputsAllFixed period st.subsec = true))) := by
  unfold Sector.isAllCalibrated
  split_ifs with h1 h2 h3 <;>
    first
      | (simp only [Bool.false_eq_true, Bool.true_eq_false]; tauto)
      | tauto

/-- The concrete sector state used to instantiate C7: one fully calibrated
subsector with calibrated output 95 against an actual sector output of 100. -/
def calCheckState : SectorState :=
  { subsec := [{ share := 0, fixedShare := 0, fixedOutput := 0, fixedOutputSaved := 0,
                 capacityLimit := 1, capLimitStatus := false, calOutputs := 95,
                 allOutputFixed := true, output := 100 }],
    anyFixedCapacity := false, capLimitsPresent := false, mktDmd := 0,
    output := 100 }

/-- Witness for C7 at a concrete state: calibrated+fixed = 95 against an
actual output of 100 with accuracy 1/100 and all outputs fixed is flagged. -/
theorem sector_isAllCalibrated_false_iff_witness :
    Sector.isAllCalibrated true 1 (1 / 100) calCheckState = false :=
  (sector_isAllCalibrated_false_iff true 1 (1 / 100) calCheckState).mpr
    ⟨by norm_num, rfl, by simp [Sector.getCalOutput, calCheckState],
     Or.inr ⟨by
        refine lt_abs.mpr (Or.inr ?_)
        simp [Sector.getCalOutput, Sector.getFixedOutput, calCheckState]
        norm_num,
      by simp [Sector.outputsAllFixed, calCheckState]⟩⟩

section CalcShareHelpers

lemma calcShareStep_noFixed (mktDmd : ℚ) (acc : ℚ × ℚ) (sub : Subsec) :
    Sector.calcShareStep false mktDmd acc sub = (acc.1 + sub.share, acc.2) := by
  simp only [Sector.calcShareStep]
  norm_num [TINY_NUM]

lemma calcShareFold_noFixed (mktDmd : ℚ) (l : List Subsec) :
    ∀ acc : ℚ × ℚ, l.foldl (Sector.calcShareStep false mktDmd) acc
      = (acc.1 + (l.map Subsec.share).sum, acc.2) := by
  induction l with
  | nil => intro acc; simp
  | cons x xs ih =>
    intro acc
    simp only [List.foldl_cons, List.map_cons, List.sum_cons]
    rw [calcShareStep_noFixed, ih]
    simp only [Prod.mk.injEq]
    refine ⟨by ring, trivial⟩

lemma calcShareSums_noFixed (st : SectorState) (hfc : st.anyFixedCapacity = false) :
    Sector.calcShareSums st = (Sector.shareSum st.subsec, 0) := by
  unfold Sector.calcShareSums
  rw [hfc, calcShareFold_noFixed]
  simp [Sector.shareSum]

lemma calcShare_noFixed_shares (T : ℚ → ℚ → ℚ) (st : SectorState)
    (hfc : st.anyFixedCapacity = false) (hcl : st.capLimitsPresent = false)
    (hfo : ∀ sub ∈ st.subsec, sub.fixedOutput = 0) :
    (Sector.calcShare T st).subsec.map Subsec.share
      = st.subsec.map (fun sub0 => sub0.share / Sector.shareSum st.subsec) := by
  unfold Sector.calcShare
  rw [calcShareSums_noFixed st hfc]
  simp only [if_neg (by norm_num : ¬ (1 : ℚ) < 0), if_pos (by norm_num : (0 : ℚ) < 1),
    sub_zero, div_one, hcl, Bool.false_eq_true, if_false, List.map_map]
  apply List.map_congr_left
  intro x hx
  have hfo' : (Subsec.setCapLimitStatus false x).fixedOutput = 0 := hfo x hx
  simp only [Function.comp_apply, if_pos hfo']
  rfl

end CalcShareHelpers

/-- The concrete sector state used for the C1 counterexample: a single
subsector whose raw (unnormalized) share is 0. -/
def zeroShareState : SectorState :=
  { subsec := [{ share := 0, fixedShare := 0, fixedOutput := 0, fixedOutputSaved := 0,
                 capacityLimit := 1, capLimitStatus := false, calOutputs := 0,
                 allOutputFixed := false, output := 0 }],
    anyFixedCapacity := false, capLimitsPresent := false, mktDmd := 0, output := 0 }

/-- Counterexample to C1 as stated: the sector has one subsector, yet after
`calcShare` the shares sum to 0, which fails the `SMALL_NUM` check — the
partition-of-unity invariant does not hold when the raw shares sum to 0
(`checkShareSum` exists exactly to log this failure). -/
theorem sector_calcShare_counterexample :
    zeroShareState.subsec.length = 1 ∧
    Sector.checkShareSum (Sector.calcShare idTransform zeroShareState).subsec = false := by
  constructor
  · norm_num [zeroShareState]
  · have h := calcShare_noFixed_shares idTransform zeroShareState rfl rfl
      (by intro sub hs; simp [zeroShareState] at hs; rw [hs])
    have hsum : Sector.shareSum (Sector.calcShare idTransform zeroShareState).subsec = 0 := by
      unfold Sector.shareSum
      rw [h]
      norm_num [zeroShareState]
    simp only [Sector.checkShareSum, hsum]
    norm_num [SMALL_NUM]

/-- C1 amended: after `calcShare`, for a sector with no fixed capacity
(`anyFixedCapacity` false and every subsector fixed output 0), no capacity
limits present in the period, and a strictly positive sum of raw subsector
shares, the subsector shares sum to exactly 1 — hence within `SMALL_NUM`, as
`checkShareSum` verifies.  (The original claim fails when the raw shares sum
to 0, and the fixed-capacity paths renormalize against lagged fixed shares
that need not be consistent.) -/
theorem sector_calcShare_partition (T : ℚ → ℚ → ℚ) (st : SectorState)
    (hfc : st.anyFixedCapacity = false) (hcl : st.capLimitsPresent = false)
    (hfo : ∀ sub ∈ st.subsec, sub.fixedOutput = 0)
    (hsum : 0 < Sector.shareSum st.subsec) :
    Sector.shareSum (Sector.calcShare T st).subsec = 1 ∧
    Sector.checkShareSum (Sector.calcShare T st).subsec = true := by
  have hS : Sector.shareSum st.subsec ≠ 0 := ne_of_gt hsum
  have h1 : Sector.shareSum (Sector.calcShare T st).subsec = 1 := by
    unfold Sector.shareSum
    rw [calcShare_noFixed_shares T st hfc hcl hfo, map_sum_div]
    exact div_self hS
  refine ⟨h1, ?_⟩
  simp only [Sector.checkShareSum, h1]
  norm_num [SMALL_NUM]

/-- The concrete sector state used for the C1 witness: two subsectors with
raw shares 3 and 1 and no fixed capacity. -/
def rawShareState : SectorState :=
  { subsec := [{ share := 3, fixedShare := 0, fixedOutput := 0, fixedOutputSaved := 0,
                 capacityLimit := 1, capLimitStatus := false, calOutputs := 0,
                 allOutputFixed := false, output := 0 },
               { share := 1, fixedShare := 0, fixedOutput := 0, fixedOutputSaved := 0,
                 capacityLimit := 1, capLimitStatus := false, calOutputs := 0,
                 allOutputFixed := false, output := 0 }],
    anyFixedCapacity := false, capLimitsPresent := false, mktDmd := 0, output := 0 }

/-- Witness for C1 (amended) at `rawShareState`. -/
theorem sector_calcShare_partition_witness :
    Sector.shareSum (Sector.calcShare idTransform rawShareState).subsec = 1 ∧
    Sector.checkShareSum (Sector.calcShare idTransform rawShareState).subsec = true :=
  sector_calcShare_partition idTransform rawShareState rfl rfl
    (by
      intro sub hs
      simp [rawShareState] at hs
      rcases hs with h | h <;> rw [h])
    (by norm_num [Sector.shareSum, rawShareState])
